import Mathlib

/-!
# Verification of `src/similarity.py` (logohunter)

Shallow embedding of the similarity decision engine: `similarity_cutoff`
(per-query cutoff estimation from a background similarity histogram) and
`similar_matches` (rounded-similarity thresholding against candidates).

Modelling conventions:
* Real arithmetic is modelled exactly over `ℚ`; numpy's float arithmetic is
  idealized to exact rationals, and `np.arange(0, 1, 0.001)` to the exact
  edges `j/1000`.
* The external `sklearn.metrics.pairwise.cosine_similarity` kernel (a dot
  product divided by the two Euclidean norms, irrational in general) is
  abstracted as a parameter `sim : List ℚ → List ℚ → ℚ`; every theorem is
  proved for an arbitrary kernel, hence in particular for cosine similarity.
  Concrete instances use `dotSim`, which agrees with cosine similarity on
  unit vectors.
* A python exception (`IndexError` from the empty fancy-indexing in
  `similarity_cutoff`, `AssertionError` in `similar_matches`) is modelled by
  `Option`/`Except`: the function returns no partial result.
-/

/-- Edge `j` of the histogram bins `np.arange(0, 1, 0.001)`: the 1000 exact
edges `0, 0.001, …, 0.999`, i.e. `j/1000`. -/
def binsEdge (j : ℕ) : ℚ := (j : ℚ) / 1000

/-- Bin membership for `np.histogram(cs1, bins=np.arange(0, 1, 0.001))`:
1000 edges give 999 bins `[j/1000, (j+1)/1000)`; numpy closes the last bin
(index 998) on the right, and values outside `[0, 0.999]` are not counted. -/
def inBin (j : ℕ) (v : ℚ) : Bool :=
  if j < 998 then decide (binsEdge j ≤ v ∧ v < binsEdge (j + 1))
  else decide (binsEdge j ≤ v ∧ v ≤ binsEdge (j + 1))

/-- `hist[j]` of `np.histogram(cs1, bins=np.arange(0, 1, 0.001))`. -/
def hist (cs1 : List ℚ) (j : ℕ) : ℕ := cs1.countP (inBin j)

/-- `np.cumsum(hist)[j]`: cumulative bin counts in ascending bin order. -/
def cumsum (cs1 : List ℚ) (j : ℕ) : ℕ := ((List.range (j + 1)).map (hist cs1)).sum

/-- One iteration of the loop in `similarity_cutoff`:
`cutoff = bins[np.where(np.cumsum(hist) < threshold*len(cs1))][-1]`.
`np.where` lists, in ascending order, the bin indices (0–998) whose cumulative
count is strictly below `threshold * len(cs1)`; `[-1]` takes the last one and
raises `IndexError` when the selection is empty (modelled by `none`). -/
def similarity_cutoff_row (cs1 : List ℚ) (threshold : ℚ) : Option ℚ :=
  (((List.range 999).filter fun j =>
      decide ((cumsum cs1 j : ℚ) < threshold * cs1.length)).getLast?).map binsEdge

/-- The `for i, cs1 in enumerate(cs)` loop of `similarity_cutoff`, appending
one cutoff per similarity row; an exception in any row aborts the whole call. -/
def similarity_cutoff_rows (cs : List (List ℚ)) (threshold : ℚ) : Option (List ℚ) :=
  match cs with
  | [] => some []
  | cs1 :: rest =>
    match similarity_cutoff_row cs1 threshold, similarity_cutoff_rows rest threshold with
    | some c, some l => some (c :: l)
    | _, _ => none

/-- `similarity_cutoff(feat_input, features, threshold)` from
`src/similarity.py`: `cs = cosine_similarity(X=feat_input, Y=features)` is the
matrix whose row `i` is `[sim feat_input[i] f | f ∈ features]`, and each row is
reduced to a cutoff by the histogram loop. -/
def similarity_cutoff (sim : List ℚ → List ℚ → ℚ) (feat_input features : List (List ℚ))
    (threshold : ℚ) : Option (List ℚ) :=
  similarity_cutoff_rows (feat_input.map fun q => features.map fun f => sim q f) threshold

/-- `m.shape[1]` of a (uniform-width) 2-D array modelled as a list of rows. -/
def width (m : List (List ℚ)) : ℕ := (m.headD []).length

/-- Floor of a rational, computed as floor division of numerator by
denominator (the denominator of a normalized `ℚ` is positive). -/
def ratFloor (q : ℚ) : ℤ := Int.fdiv q.num (q.den : ℤ)

/-- `np.round` at integer precision: round half to even (banker's rounding). -/
def roundHalfEven (q : ℚ) : ℤ :=
  let f : ℤ := ratFloor q
  let r : ℚ := q - (f : ℚ)
  if r < 1 / 2 then f
  else if 1 / 2 < r then f + 1
  else if f % 2 = 0 then f else f + 1

/-- `np.round(q, 3)`: round half to even at the third decimal place. -/
def round3 (q : ℚ) : ℚ := (roundHalfEven (q * 1000) : ℚ) / 1000

/-- `cos_sim = np.round(cosine_similarity(X=feat_input, Y=features_cand), 3)`
in `similar_matches`. -/
def cos_sim_matrix (sim : List ℚ → List ℚ → ℚ)
    (feat_input features_cand : List (List ℚ)) : List (List ℚ) :=
  feat_input.map fun q => features_cand.map fun cand => round3 (sim q cand)

/-- The match loop of `similar_matches`: for each input row `i`,
`np.where(cos_sim[i] >= cutoff_list[i])` lists, in ascending order, the
candidate indices whose rounded similarity reaches the cutoff. -/
def match_indices (sim : List ℚ → List ℚ → ℚ)
    (feat_input features_cand : List (List ℚ)) (cutoff_list : List ℚ) : List (List ℕ) :=
  (List.range feat_input.length).map fun i =>
    (List.range features_cand.length).filter fun c =>
      decide (cutoff_list.getD i 0 ≤ ((cos_sim_matrix sim feat_input features_cand).getD i []).getD c 0)

/-- `similar_matches(feat_input, features_cand, cutoff_list)` from
`src/similarity.py`: early return on an empty candidate set, then the two
`assert` statements (with their exact messages), then the rounded similarity
matrix and the per-input match indices. -/
def similar_matches (sim : List ℚ → List ℚ → ℚ)
    (feat_input features_cand : List (List ℚ)) (cutoff_list : List ℚ) :
    Except String (List (List ℕ) × List (List ℚ)) :=
  if features_cand.length = 0 then Except.ok ([], [])
  else if width feat_input ≠ width features_cand then
    Except.error "matrices should have same columns"
  else if cutoff_list.length ≠ feat_input.length then
    Except.error "there should be one similarity cutoff for each input logo"
  else Except.ok (match_indices sim feat_input features_cand cutoff_list,
                  cos_sim_matrix sim feat_input features_cand)

instance {ε α : Type} [DecidableEq ε] [DecidableEq α] : DecidableEq (Except ε α) :=
  fun a b =>
    match a, b with
    | Except.ok x, Except.ok y =>
      if h : x = y then Decidable.isTrue (by rw [h])
      else Decidable.isFalse (by intro hc; cases hc; exact h rfl)
    | Except.ok _, Except.error _ => Decidable.isFalse (by intro hc; cases hc)
    | Except.error _, Except.ok _ => Decidable.isFalse (by intro hc; cases hc)
    | Except.error e, Except.error f =>
      if h : e = f then Decidable.isTrue (by rw [h])
      else Decidable.isFalse (by intro hc; cases hc; exact h rfl)

/-- Dot product of two rational vectors; equal to cosine similarity whenever
both vectors have Euclidean norm 1 (used for concrete instances). -/
def dotSim (x y : List ℚ) : ℚ := (List.zipWith (fun a b => a * b) x y).sum

/-- Cumulative count below an edge, stated directly on the similarity list:
the number of values in `[0, (j+1)/1000)` (for the last bin, in `[0, 0.999]`).
Used as the independent description of `np.cumsum(hist)[j]`. -/
def countUpto (sims : List ℚ) (j : ℕ) : ℕ :=
  if j < 998 then sims.countP fun v => decide (0 ≤ v ∧ v < binsEdge (j + 1))
  else sims.countP fun v => decide (0 ≤ v ∧ v ≤ binsEdge 999)

/-- Auxiliary: `ratFloor` of an integer is that integer. -/
theorem ratFloor_intCast (n : ℤ) : ratFloor (n : ℚ) = n := by
  simp [ratFloor, Rat.num_intCast, Rat.den_intCast, Int.fdiv_one]

/-- Auxiliary: `np.round` of an integer is that integer. -/
theorem roundHalfEven_intCast (n : ℤ) : roundHalfEven (n : ℚ) = n := by
  unfold roundHalfEven
  rw [ratFloor_intCast]
  norm_num

/-- Auxiliary: `np.round(1, 3) = 1`. -/
theorem round3_one : round3 1 = 1 := by
  have h : ((1 : ℚ) * 1000) = ((1000 : ℤ) : ℚ) := by norm_num
  rw [round3, h, roundHalfEven_intCast]
  norm_num

/-! ## Counting and histogram lemmas -/

/-- Counting a disjoint union of predicates adds the counts. -/
theorem countP_union_of_disjoint (l : List ℚ) (P Q : ℚ → Prop)
    [DecidablePred P] [DecidablePred Q] (h : ∀ v, ¬(P v ∧ Q v)) :
    (l.countP fun v => decide (P v ∨ Q v)) =
      (l.countP fun v => decide (P v)) + (l.countP fun v => decide (Q v)) := by
  induction l with
  | nil => simp
  | cons a l ih =>
    simp only [List.countP_cons, ih]
    by_cases hP : P a
    · have hQ : ¬Q a := fun hq => h a ⟨hP, hq⟩
      simp [hP, hQ]
      omega
    · by_cases hQ : Q a
      · simp [hP, hQ]
        omega
      · simp [hP, hQ]

theorem binsEdge_nonneg (j : ℕ) : 0 ≤ binsEdge j := by
  unfold binsEdge
  positivity

theorem binsEdge_le_binsEdge {j k : ℕ} (h : j ≤ k) : binsEdge j ≤ binsEdge k := by
  unfold binsEdge
  exact (div_le_div_iff_of_pos_right (by norm_num)).mpr (by exact_mod_cast h)

theorem binsEdge_lt_one {j : ℕ} (h : j < 1000) : binsEdge j < 1 := by
  unfold binsEdge
  rw [div_lt_one (by norm_num)]
  exact_mod_cast h

theorem hist_eq_of_lt (cs1 : List ℚ) {j : ℕ} (h : j < 998) :
    hist cs1 j = cs1.countP fun v => decide (binsEdge j ≤ v ∧ v < binsEdge (j + 1)) := by
  unfold hist
  have hfun : inBin j = fun v => decide (binsEdge j ≤ v ∧ v < binsEdge (j + 1)) := by
    funext v
    simp [inBin, h]
  rw [hfun]

theorem hist_eq_last (cs1 : List ℚ) :
    hist cs1 998 = cs1.countP fun v => decide (binsEdge 998 ≤ v ∧ v ≤ binsEdge 999) := by
  unfold hist
  have hfun : inBin 998 = fun v => decide (binsEdge 998 ≤ v ∧ v ≤ binsEdge 999) := by
    funext v
    simp [inBin]
  rw [hfun]

theorem countUpto_eq_of_lt (cs1 : List ℚ) {j : ℕ} (h : j < 998) :
    countUpto cs1 j = cs1.countP fun v => decide (0 ≤ v ∧ v < binsEdge (j + 1)) := by
  unfold countUpto
  rw [if_pos h]

theorem countUpto_eq_of_ge (cs1 : List ℚ) {j : ℕ} (h : ¬j < 998) :
    countUpto cs1 j = cs1.countP fun v => decide (0 ≤ v ∧ v ≤ binsEdge 999) := by
  unfold countUpto
  rw [if_neg h]

theorem cumsum_zero (cs1 : List ℚ) : cumsum cs1 0 = hist cs1 0 := by
  rw [cumsum, show List.range 1 = [0] from rfl]
  simp

theorem cumsum_succ (cs1 : List ℚ) (j : ℕ) :
    cumsum cs1 (j + 1) = cumsum cs1 j + hist cs1 (j + 1) := by
  rw [cumsum, List.range_succ, List.map_append, List.sum_append]
  simp [cumsum]

/-- `np.cumsum(hist)[j]` counts exactly the similarities in `[0, (j+1)/1000)`
(for `j = 998`, in `[0, 0.999]`): the histogram bins partition that range. -/
theorem cumsum_eq_countUpto (cs1 : List ℚ) : ∀ j : ℕ, j ≤ 998 → cumsum cs1 j = countUpto cs1 j := by
  intro j
  induction j with
  | zero =>
    intro _
    rw [cumsum_zero, hist_eq_of_lt cs1 (by norm_num), countUpto_eq_of_lt cs1 (by norm_num)]
    refine List.countP_congr ?_
    intro v _
    have h0 : binsEdge 0 = 0 := by norm_num [binsEdge]
    simp [h0]
  | succ j ih =>
    intro hj
    have hjlt : j < 998 := by omega
    rw [cumsum_succ, ih (by omega), countUpto_eq_of_lt cs1 hjlt]
    by_cases hcase : j + 1 < 998
    · rw [countUpto_eq_of_lt cs1 hcase, hist_eq_of_lt cs1 hcase,
        ← countP_union_of_disjoint cs1
          (fun v => 0 ≤ v ∧ v < binsEdge (j + 1))
          (fun v => binsEdge (j + 1) ≤ v ∧ v < binsEdge (j + 2))
          (by
            rintro v ⟨⟨_, h1⟩, ⟨h2, _⟩⟩
            linarith)]
      refine List.countP_congr ?_
      intro v _
      simp only [decide_eq_true_eq]
      constructor
      · rintro (⟨h0, hlt⟩ | ⟨hge, hlt⟩)
        · exact ⟨h0, lt_of_lt_of_le hlt (binsEdge_le_binsEdge (by omega))⟩
        · exact ⟨le_trans (binsEdge_nonneg _) hge, hlt⟩
      · rintro ⟨h0, hlt⟩
        rcases lt_or_le v (binsEdge (j + 1)) with hv | hv
        · exact Or.inl ⟨h0, hv⟩
        · exact Or.inr ⟨hv, hlt⟩
    · have h998 : j + 1 = 998 := by omega
      rw [h998, countUpto_eq_of_ge cs1 (by norm_num), hist_eq_last,
        ← countP_union_of_disjoint cs1
          (fun v => 0 ≤ v ∧ v < binsEdge 998)
          (fun v => binsEdge 998 ≤ v ∧ v ≤ binsEdge 999)
          (by
            rintro v ⟨⟨_, h1⟩, ⟨h2, _⟩⟩
            linarith)]
      refine List.countP_congr ?_
      intro v _
      simp only [decide_eq_true_eq]
      constructor
      · rintro (⟨h0, hlt⟩ | ⟨hge, hle⟩)
        · exact ⟨h0, le_trans (le_of_lt hlt) (binsEdge_le_binsEdge (by norm_num))⟩
        · exact ⟨le_trans (binsEdge_nonneg _) hge, hle⟩
      · rintro ⟨h0, hle⟩
        rcases lt_or_le v (binsEdge 998) with hv | hv
        · exact Or.inl ⟨h0, hv⟩
        · exact Or.inr ⟨hv, hle⟩

theorem cumsum_le_cumsum (cs1 : List ℚ) {j k : ℕ} (h : j ≤ k) :
    cumsum cs1 j ≤ cumsum cs1 k := by
  induction h with
  | refl => exact le_rfl
  | step h ih =>
    rw [cumsum_succ]
    omega

/-! ## Selection of the last qualifying bin -/

/-- `getLast?` of a filtered `range` is the greatest index below `n`
satisfying the predicate. -/
theorem getLast?_filter_range (p : ℕ → Bool) :
    ∀ n j : ℕ, (((List.range n).filter p).getLast? = some j ↔
      (j < n ∧ p j = true ∧ ∀ k, j < k → k < n → p k = false)) := by
  intro n
  induction n with
  | zero =>
    intro j
    simp
  | succ n ih =>
    intro j
    rw [List.range_succ, List.filter_append]
    by_cases hp : p n = true
    · rw [show List.filter p [n] = [n] by simp [hp], List.getLast?_concat]
      constructor
      · intro h
        have hnj : n = j := by simpa using h
        subst hnj
        exact ⟨Nat.lt_succ_self n, hp, fun k hk1 hk2 => absurd hk1 (by omega)⟩
      · rintro ⟨hjn, hpj, hmax⟩
        have hj : j = n := by
          by_contra hne
          have := hmax n (by omega) (Nat.lt_succ_self n)
          rw [this] at hp
          cases hp
        subst hj
        rfl
    · have hpn : p n = false := by
        cases hb : p n
        · rfl
        · exact absurd hb hp
      rw [show List.filter p [n] = [] by simp [hpn], List.append_nil, ih j]
      constructor
      · rintro ⟨h1, h2, h3⟩
        refine ⟨by omega, h2, fun k hk1 hk2 => ?_⟩
        rcases (by omega : k < n ∨ k = n) with hk | hk
        · exact h3 k hk1 hk
        · subst hk
          exact hpn
      · rintro ⟨h1, h2, h3⟩
        have hj_ne : j ≠ n := by
          intro he
          subst he
          rw [h2] at hpn
          cases hpn
        exact ⟨by omega, h2, fun k hk1 hk2 => h3 k hk1 (by omega)⟩

/-- Characterization of one loop iteration of `similarity_cutoff`: it returns
the left edge of the greatest bin index `j ≤ 998` whose cumulative count is
strictly below `threshold * len(cs1)`. -/
theorem similarity_cutoff_row_eq_some (cs1 : List ℚ) (threshold c : ℚ) :
    similarity_cutoff_row cs1 threshold = some c ↔
      ∃ j : ℕ, j ≤ 998 ∧ c = binsEdge j ∧
        (cumsum cs1 j : ℚ) < threshold * cs1.length ∧
        ∀ k : ℕ, j < k → k ≤ 998 → ¬((cumsum cs1 k : ℚ) < threshold * cs1.length) := by
  unfold similarity_cutoff_row
  rw [Option.map_eq_some']
  constructor
  · rintro ⟨j, hj, hc⟩
    rw [getLast?_filter_range] at hj
    obtain ⟨hjn, hpj, hmax⟩ := hj
    refine ⟨j, by omega, hc.symm, of_decide_eq_true hpj, ?_⟩
    intro k hk1 hk2 hk3
    have hfalse := hmax k hk1 (by omega)
    rw [decide_eq_false_iff_not] at hfalse
    exact hfalse hk3
  · rintro ⟨j, hj, hc, hcount, hmax⟩
    refine ⟨j, ?_, hc.symm⟩
    rw [getLast?_filter_range]
    exact ⟨by omega, decide_eq_true hcount,
      fun k hk1 hk2 => decide_eq_false (hmax k hk1 (by omega))⟩

/-- When the cumulative count stays below the target through the last bin, the
selected cutoff is the last bin edge below the maximum, `0.998`. -/
theorem similarity_cutoff_row_fallback (cs1 : List ℚ) (t : ℚ)
    (h : (cumsum cs1 998 : ℚ) < t * cs1.length) :
    similarity_cutoff_row cs1 t = some (binsEdge 998) := by
  rw [similarity_cutoff_row_eq_some]
  exact ⟨998, le_rfl, rfl, h, fun k hk1 hk2 => absurd hk1 (by omega)⟩

/-- When already the first bin's cumulative count reaches the target, no bin
qualifies and the `[-1]` indexing raises (`none`). -/
theorem similarity_cutoff_row_eq_none (cs1 : List ℚ) (t : ℚ)
    (h : t * cs1.length ≤ (cumsum cs1 0 : ℚ)) :
    similarity_cutoff_row cs1 t = none := by
  unfold similarity_cutoff_row
  rw [show ((List.range 999).filter fun j =>
      decide ((cumsum cs1 j : ℚ) < t * cs1.length)) = [] by
    rw [List.filter_eq_nil_iff]
    intro a _
    simp only [decide_eq_true_eq, not_lt]
    calc t * cs1.length ≤ (cumsum cs1 0 : ℚ) := h
      _ ≤ (cumsum cs1 a : ℚ) := by exact_mod_cast cumsum_le_cumsum cs1 (Nat.zero_le a)]
  rfl

/-! ## The row loop -/

theorem similarity_cutoff_rows_length {cs : List (List ℚ)} {t : ℚ} {l : List ℚ}
    (h : similarity_cutoff_rows cs t = some l) : l.length = cs.length := by
  induction cs generalizing l with
  | nil =>
    simp only [similarity_cutoff_rows] at h
    cases h
    rfl
  | cons cs1 rest ih =>
    unfold similarity_cutoff_rows at h
    cases hr : similarity_cutoff_row cs1 t with
    | none =>
      rw [hr] at h
      cases hrest : similarity_cutoff_rows rest t <;> rw [hrest] at h <;> cases h
    | some c =>
      rw [hr] at h
      cases hrest : similarity_cutoff_rows rest t with
      | none =>
        rw [hrest] at h
        cases h
      | some l' =>
        rw [hrest] at h
        cases h
        simp [ih hrest]

theorem similarity_cutoff_rows_getD {cs : List (List ℚ)} {t : ℚ} {l : List ℚ}
    (h : similarity_cutoff_rows cs t = some l) :
    ∀ i : ℕ, i < cs.length → similarity_cutoff_row (cs.getD i []) t = some (l.getD i 0) := by
  induction cs generalizing l with
  | nil =>
    intro i hi
    cases hi
  | cons cs1 rest ih =>
    unfold similarity_cutoff_rows at h
    cases hr : similarity_cutoff_row cs1 t with
    | none =>
      rw [hr] at h
      cases hrest : similarity_cutoff_rows rest t <;> rw [hrest] at h <;> cases h
    | some c =>
      rw [hr] at h
      cases hrest : similarity_cutoff_rows rest t with
      | none =>
        rw [hrest] at h
        cases h
      | some l' =>
        rw [hrest] at h
        cases h
        intro i hi
        cases i with
        | zero => exact hr
        | succ i => exact ih hrest i (by simpa using hi)

/-- `similarity_cutoff` on a single input reduces to one loop iteration. -/
theorem similarity_cutoff_single (sim : List ℚ → List ℚ → ℚ) (q : List ℚ)
    (bg : List (List ℚ)) (t : ℚ) :
    similarity_cutoff sim [q] bg t =
      (similarity_cutoff_row (bg.map fun f => sim q f) t).map (fun c => [c]) := by
  cases hr : similarity_cutoff_row (bg.map fun f => sim q f) t <;>
    simp [similarity_cutoff, similarity_cutoff_rows, hr]

/-! ## Indexing helpers -/

theorem getD_map_of_lt {α β : Type} (f : α → β) (l : List α) (d : α) (e : β) {i : ℕ}
    (hi : i < l.length) : (l.map f).getD i e = f (l.getD i d) := by
  rw [List.getD_eq_getElem?_getD, List.getElem?_map, List.getElem?_eq_getElem hi]
  simp only [Option.map_some', Option.getD_some]
  congr 1
  rw [List.getD_eq_getElem?_getD, List.getElem?_eq_getElem hi]
  rfl

theorem getD_map_range {β : Type} (f : ℕ → β) (e : β) {i n : ℕ} (hi : i < n) :
    ((List.range n).map f).getD i e = f i := by
  rw [List.getD_eq_getElem?_getD, List.getElem?_map, List.getElem?_range hi]
  rfl

/-! ## `similar_matches` on the success path -/

theorem similar_matches_eq_ok (sim : List ℚ → List ℚ → ℚ)
    (fi fc : List (List ℚ)) (cl : List ℚ)
    (hfc : fc ≠ []) (hw : width fi = width fc) (hl : cl.length = fi.length) :
    similar_matches sim fi fc cl =
      Except.ok (match_indices sim fi fc cl, cos_sim_matrix sim fi fc) := by
  unfold similar_matches
  rw [if_neg (fun h => hfc (List.length_eq_zero.mp h)), if_neg (fun h => h hw),
    if_neg (fun h => h hl)]

theorem cos_sim_matrix_getD (sim : List ℚ → List ℚ → ℚ) (fi fc : List (List ℚ)) {i : ℕ}
    (hi : i < fi.length) :
    (cos_sim_matrix sim fi fc).getD i [] =
      fc.map fun cand => round3 (sim (fi.getD i []) cand) := by
  unfold cos_sim_matrix
  rw [getD_map_of_lt _ fi [] [] hi]

theorem match_indices_getD (sim : List ℚ → List ℚ → ℚ)
    (fi fc : List (List ℚ)) (cl : List ℚ) {i : ℕ} (hi : i < fi.length) :
    (match_indices sim fi fc cl).getD i [] =
      (List.range fc.length).filter fun c =>
        decide (cl.getD i 0 ≤ round3 (sim (fi.getD i []) (fc.getD c []))) := by
  unfold match_indices
  rw [getD_map_range _ [] hi]
  refine List.filter_congr ?_
  intro c hc
  rw [List.mem_range] at hc
  rw [cos_sim_matrix_getD sim fi fc hi, getD_map_of_lt _ fc [] 0 hc]

/-! ## Single-query form of `similarity_cutoff` -/

theorem similarity_cutoff_single_some {sim : List ℚ → List ℚ → ℚ} {q : List ℚ}
    {bg : List (List ℚ)} {t c : ℚ} :
    similarity_cutoff sim [q] bg t = some [c] ↔
      similarity_cutoff_row (bg.map fun f => sim q f) t = some c := by
  rw [similarity_cutoff_single]
  cases hr : similarity_cutoff_row (bg.map fun f => sim q f) t <;> simp [hr]

/-! ## Concrete evaluation helpers -/

theorem binsEdge_le_one {j : ℕ} (h : j ≤ 1000) : binsEdge j ≤ 1 := by
  unfold binsEdge
  rw [div_le_one (by norm_num)]
  exact_mod_cast h

theorem dotSim_unit : dotSim [1] [1] = 1 := by
  norm_num [dotSim]

theorem dotSim_orth : dotSim [1, 0] [0, 1] = 0 := by
  norm_num [dotSim]

theorem countUpto_single_ge_one {v : ℚ} (hv : 1 ≤ v) (j : ℕ) : countUpto [v] j = 0 := by
  unfold countUpto
  split
  · rename_i hj
    apply List.countP_eq_zero.mpr
    intro a ha
    rw [List.mem_singleton] at ha
    subst ha
    simp only [decide_eq_true_eq]
    rintro ⟨_, hlt⟩
    have := binsEdge_le_one (show j + 1 ≤ 1000 by omega)
    linarith
  · apply List.countP_eq_zero.mpr
    intro a ha
    rw [List.mem_singleton] at ha
    subst ha
    simp only [decide_eq_true_eq]
    rintro ⟨_, hle⟩
    have := binsEdge_le_one (show 999 ≤ 1000 by omega)
    have h1 : binsEdge 999 < 1 := binsEdge_lt_one (by omega)
    linarith

theorem cumsum_single_ge_one {v : ℚ} (hv : 1 ≤ v) {j : ℕ} (hj : j ≤ 998) :
    cumsum [v] j = 0 := by
  rw [cumsum_eq_countUpto _ j hj, countUpto_single_ge_one hv]

theorem countUpto_single_zero_val : countUpto [0] 0 = 1 := by
  rw [countUpto_eq_of_lt _ (by norm_num)]
  norm_num [List.countP_cons, binsEdge]

/-! ## The cutoff computation as claim C1 words it

Claim C1 describes the histogram as covering the half-open range `[0, 1)`
with bin width `0.001`, which yields the 1000 half-open bins
`[j/1000, (j+1)/1000)` for `j = 0, …, 999`.  The following definitions follow
the claim's words (not the source) and exist only to be compared against
`similarity_cutoff`, whose `np.arange(0, 1, 0.001)` edges yield 999 bins
covering `[0, 0.999]` instead. -/

/-- Follows claim C1's words: bin `j` of a histogram over `[0, 1)` with bin
width `0.001` — all 1000 bins half-open. -/
def claimC1_inBin (j : ℕ) (v : ℚ) : Bool :=
  decide (binsEdge j ≤ v ∧ v < binsEdge (j + 1))

/-- Follows claim C1's words: cumulative count across the 1000 bins in
ascending similarity order. -/
def claimC1_cumsum (sims : List ℚ) (j : ℕ) : ℕ :=
  ((List.range (j + 1)).map fun k => sims.countP (claimC1_inBin k)).sum

/-- Follows claim C1's words: the left edge of the highest bin whose
cumulative count is strictly less than `threshold × B`. -/
def claimC1_cutoff_row (sims : List ℚ) (threshold : ℚ) : Option ℚ :=
  (((List.range 1000).filter fun j =>
      decide ((claimC1_cumsum sims j : ℚ) < threshold * sims.length)).getLast?).map binsEdge

/-- Follows claim C1's words, row by row. -/
def claimC1_rows (cs : List (List ℚ)) (threshold : ℚ) : Option (List ℚ) :=
  match cs with
  | [] => some []
  | cs1 :: rest =>
    match claimC1_cutoff_row cs1 threshold, claimC1_rows rest threshold with
    | some c, some l => some (c :: l)
    | _, _ => none

/-- Follows claim C1's words, one cutoff per query. -/
def claimC1_estimate (sim : List ℚ → List ℚ → ℚ) (feat_input features : List (List ℚ))
    (threshold : ℚ) : Option (List ℚ) :=
  claimC1_rows (feat_input.map fun q => features.map fun f => sim q f) threshold

theorem claimC1_cumsum_single_one {j : ℕ} (hj : j ≤ 999) : claimC1_cumsum [1] j = 0 := by
  unfold claimC1_cumsum
  apply List.sum_eq_zero
  intro x hx
  rw [List.mem_map] at hx
  obtain ⟨k, hk, hxe⟩ := hx
  rw [List.mem_range] at hk
  rw [← hxe]
  apply List.countP_eq_zero.mpr
  intro a ha
  rw [List.mem_singleton] at ha
  subst ha
  unfold claimC1_inBin
  simp only [decide_eq_true_eq]
  rintro ⟨_, hlt⟩
  have := binsEdge_le_one (show k + 1 ≤ 1000 by omega)
  linarith

theorem claimC1_cutoff_row_single_one :
    claimC1_cutoff_row [1] (95 / 100) = some (binsEdge 999) := by
  unfold claimC1_cutoff_row
  rw [Option.map_eq_some']
  refine ⟨999, ?_, rfl⟩
  rw [getLast?_filter_range]
  refine ⟨by omega, ?_, fun k hk1 hk2 => absurd hk1 (by omega)⟩
  apply decide_eq_true
  rw [claimC1_cumsum_single_one (by omega)]
  norm_num

theorem binsEdge_lt_binsEdge {j k : ℕ} (h : j < k) : binsEdge j < binsEdge k := by
  unfold binsEdge
  rw [div_lt_div_iff_of_pos_right (by norm_num)]
  exact_mod_cast h

/-- A unit similarity (query equal to a background unit vector) lies outside
the histogram range, so every threshold yields the fallback edge `0.998`. -/
theorem similarity_cutoff_unit_single (t : ℚ) (ht : 0 < t) :
    similarity_cutoff dotSim [[1]] [[1]] t = some [binsEdge 998] := by
  apply similarity_cutoff_single_some.mpr
  rw [show (([[1]] : List (List ℚ)).map fun f => dotSim [1] f) = [1] by
    rw [List.map_cons, List.map_nil, dotSim_unit]]
  apply similarity_cutoff_row_fallback
  rw [cumsum_single_ge_one le_rfl (le_refl 998)]
  simp only [List.length_singleton]
  push_cast
  linarith

/-- Background similarities `[0.1, 0.5]`: cumulative counts reach 1 from bin
100 on. -/
theorem cumsum_pair_ge_one {k : ℕ} (h100 : 100 ≤ k) (hk : k ≤ 998) :
    1 ≤ cumsum [1 / 10, 1 / 2] k := by
  rw [cumsum_eq_countUpto _ k hk]
  unfold countUpto
  have hmem : (1 : ℚ) / 10 ∈ [(1 : ℚ) / 10, 1 / 2] := List.mem_cons_self _ _
  split
  · rename_i hlt
    have hp : (0 : ℚ) ≤ 1 / 10 ∧ (1 : ℚ) / 10 < binsEdge (k + 1) :=
      ⟨by norm_num, lt_of_lt_of_le (by norm_num [binsEdge])
        (binsEdge_le_binsEdge (show 101 ≤ k + 1 by omega))⟩
    have hcp : 0 < List.countP (fun v => decide ((0 : ℚ) ≤ v ∧ v < binsEdge (k + 1)))
        [(1 : ℚ) / 10, 1 / 2] :=
      List.countP_pos_iff.mpr ⟨1 / 10, hmem, decide_eq_true hp⟩
    omega
  · have hp : (0 : ℚ) ≤ 1 / 10 ∧ (1 : ℚ) / 10 ≤ binsEdge 999 :=
      ⟨by norm_num, by norm_num [binsEdge]⟩
    have hcp : 0 < List.countP (fun v => decide ((0 : ℚ) ≤ v ∧ v ≤ binsEdge 999))
        [(1 : ℚ) / 10, 1 / 2] :=
      List.countP_pos_iff.mpr ⟨1 / 10, hmem, decide_eq_true hp⟩
    omega

/-- Background similarities `[0.1, 0.5]`: cumulative counts reach 2 from bin
500 on. -/
theorem cumsum_pair_ge_two {k : ℕ} (h500 : 500 ≤ k) (hk : k ≤ 998) :
    2 ≤ cumsum [1 / 10, 1 / 2] k := by
  rw [cumsum_eq_countUpto _ k hk]
  unfold countUpto
  split
  · rename_i hlt
    have hp1 : (0 : ℚ) ≤ 1 / 10 ∧ (1 : ℚ) / 10 < binsEdge (k + 1) :=
      ⟨by norm_num, lt_of_lt_of_le (by norm_num [binsEdge])
        (binsEdge_le_binsEdge (show 501 ≤ k + 1 by omega))⟩
    have hp2 : (0 : ℚ) ≤ 1 / 2 ∧ (1 : ℚ) / 2 < binsEdge (k + 1) :=
      ⟨by norm_num, lt_of_lt_of_le (by norm_num [binsEdge])
        (binsEdge_le_binsEdge (show 501 ≤ k + 1 by omega))⟩
    simp only [List.countP_cons, List.countP_nil, decide_eq_true_eq]
    rw [if_pos hp1, if_pos hp2]
  · have hp1 : (0 : ℚ) ≤ 1 / 10 ∧ (1 : ℚ) / 10 ≤ binsEdge 999 :=
      ⟨by norm_num, by norm_num [binsEdge]⟩
    have hp2 : (0 : ℚ) ≤ 1 / 2 ∧ (1 : ℚ) / 2 ≤ binsEdge 999 :=
      ⟨by norm_num, by norm_num [binsEdge]⟩
    simp only [List.countP_cons, List.countP_nil, decide_eq_true_eq]
    rw [if_pos hp1, if_pos hp2]

theorem cumsum_pair_99 : cumsum [1 / 10, 1 / 2] 99 = 0 := by
  rw [cumsum_eq_countUpto _ 99 (by omega), countUpto_eq_of_lt _ (by omega)]
  norm_num [List.countP_cons, binsEdge]

theorem cumsum_pair_499 : cumsum [1 / 10, 1 / 2] 499 = 1 := by
  rw [cumsum_eq_countUpto _ 499 (by omega), countUpto_eq_of_lt _ (by omega)]
  norm_num [List.countP_cons, binsEdge]

theorem similarity_cutoff_pair_quarter :
    similarity_cutoff dotSim [[1]] [[1 / 10], [1 / 2]] (1 / 4) = some [binsEdge 99] := by
  apply similarity_cutoff_single_some.mpr
  rw [show (([[(1 : ℚ) / 10], [(1 : ℚ) / 2]] : List (List ℚ)).map fun f => dotSim [1] f)
      = [1 / 10, 1 / 2] by simp [dotSim]]
  rw [similarity_cutoff_row_eq_some]
  refine ⟨99, by omega, rfl, ?_, ?_⟩
  · rw [cumsum_pair_99]
    norm_num
  · intro k hk1 hk2
    have h1 := cumsum_pair_ge_one (show 100 ≤ k by omega) hk2
    simp only [List.length_cons, List.length_nil, not_lt]
    push_cast
    have : (1 : ℚ) ≤ (cumsum [1 / 10, 1 / 2] k : ℚ) := by exact_mod_cast h1
    linarith

theorem similarity_cutoff_pair_threequarters :
    similarity_cutoff dotSim [[1]] [[1 / 10], [1 / 2]] (3 / 4) = some [binsEdge 499] := by
  apply similarity_cutoff_single_some.mpr
  rw [show (([[(1 : ℚ) / 10], [(1 : ℚ) / 2]] : List (List ℚ)).map fun f => dotSim [1] f)
      = [1 / 10, 1 / 2] by simp [dotSim]]
  rw [similarity_cutoff_row_eq_some]
  refine ⟨499, by omega, rfl, ?_, ?_⟩
  · rw [cumsum_pair_499]
    norm_num
  · intro k hk1 hk2
    have h2 := cumsum_pair_ge_two (show 500 ≤ k by omega) hk2
    simp only [List.length_cons, List.length_nil, not_lt]
    push_cast
    have : (2 : ℚ) ≤ (cumsum [1 / 10, 1 / 2] k : ℚ) := by exact_mod_cast h2
    linarith

/-! ## Claim theorems -/

/-- **C1** (amended): for every background set and query, `similarity_cutoff`
computes the query's cutoff from the histogram of the query-vs-background
similarities with bin edges at multiples of `0.001` from `0` to `0.999` — 999
bins covering `[0, 0.999]` (not 1000 bins covering `[0, 1)` as the claim
states), the last bin closed and values outside the range uncounted.  It
returns the left edge `j/1000` of the highest bin `j` whose cumulative count —
the number of similarities in `[0, (j+1)/1000)`, resp. `[0, 0.999]` for the
last bin — is strictly less than `threshold × B`, and fails when no bin
qualifies. -/
theorem similarity_cutoff_histogram_spec (sim : List ℚ → List ℚ → ℚ) (q : List ℚ)
    (bg : List (List ℚ)) (t c : ℚ) :
    similarity_cutoff sim [q] bg t = some [c] ↔
      ∃ j : ℕ, j ≤ 998 ∧ c = binsEdge j ∧
        (countUpto (bg.map fun f => sim q f) j : ℚ) < t * bg.length ∧
        ∀ k : ℕ, j < k → k ≤ 998 →
          ¬((countUpto (bg.map fun f => sim q f) k : ℚ) < t * bg.length) := by
  rw [similarity_cutoff_single_some, similarity_cutoff_row_eq_some]
  constructor
  · rintro ⟨j, hj, hc, hcnt, hmax⟩
    refine ⟨j, hj, hc, ?_, ?_⟩
    · rw [← cumsum_eq_countUpto _ j hj]
      rwa [List.length_map] at hcnt
    · intro k hk1 hk2
      rw [← cumsum_eq_countUpto _ k hk2]
      have hk := hmax k hk1 hk2
      rwa [List.length_map] at hk
  · rintro ⟨j, hj, hc, hcnt, hmax⟩
    refine ⟨j, hj, hc, ?_, ?_⟩
    · rw [cumsum_eq_countUpto _ j hj, List.length_map]
      exact hcnt
    · intro k hk1 hk2
      rw [cumsum_eq_countUpto _ k hk2, List.length_map]
      exact hmax k hk1 hk2

/-- **C1** (counterexample): with a single query identical to the single
background vector (cosine similarity exactly 1, outside every histogram bin)
and threshold `0.95`, the code returns the edge `0.998` — the highest of its
999 bin edges `0 … 0.998` — while the procedure described by the claim
(1000 bins over `[0, 1)`) returns `0.999`. -/
theorem similarity_cutoff_claimC1_counterexample :
    similarity_cutoff dotSim [[1]] [[1]] (95 / 100) = some [binsEdge 998] ∧
    claimC1_estimate dotSim [[1]] [[1]] (95 / 100) = some [binsEdge 999] ∧
    similarity_cutoff dotSim [[1]] [[1]] (95 / 100) ≠
      claimC1_estimate dotSim [[1]] [[1]] (95 / 100) := by
  have hm : (([[1]] : List (List ℚ)).map fun f => dotSim [1] f) = [1] := by
    rw [List.map_cons, List.map_nil, dotSim_unit]
  have hcode : similarity_cutoff dotSim [[1]] [[1]] (95 / 100) = some [binsEdge 998] := by
    apply similarity_cutoff_single_some.mpr
    rw [hm]
    apply similarity_cutoff_row_fallback
    rw [cumsum_single_ge_one le_rfl (le_refl 998)]
    simp only [List.length_singleton]
    norm_num
  have hclaim : claimC1_estimate dotSim [[1]] [[1]] (95 / 100) = some [binsEdge 999] := by
    unfold claimC1_estimate
    rw [show (([[1]] : List (List ℚ)).map fun q => ([[1]] : List (List ℚ)).map fun f => dotSim q f)
        = [[1]] by rw [List.map_cons, List.map_nil, hm]]
    simp [claimC1_rows, claimC1_cutoff_row_single_one]
  refine ⟨hcode, hclaim, ?_⟩
  rw [hcode, hclaim]
  intro h
  simp only [Option.some.injEq, List.cons.injEq, and_true] at h
  norm_num [binsEdge] at h

/-- **C2**: for query and candidate matrices of equal width and one cutoff per
query, `similar_matches` returns, for each query index `i`, exactly the
candidate indices `c < C` whose similarity, rounded to 3 decimal places
*before* the comparison, is `≥ cutoff[i]` (inclusive), in ascending candidate
order. -/
theorem similar_matches_match_set (sim : List ℚ → List ℚ → ℚ)
    (fi fc : List (List ℚ)) (cl : List ℚ)
    (hfc : fc ≠ []) (hw : width fi = width fc) (hl : cl.length = fi.length) :
    ∃ mi cs, similar_matches sim fi fc cl = Except.ok (mi, cs) ∧
      mi.length = fi.length ∧
      ∀ i : ℕ, i < fi.length →
        (∀ c : ℕ, c ∈ mi.getD i [] ↔
          (c < fc.length ∧ cl.getD i 0 ≤ round3 (sim (fi.getD i []) (fc.getD c [])))) ∧
        List.Pairwise (· < ·) (mi.getD i []) := by
  refine ⟨_, _, similar_matches_eq_ok sim fi fc cl hfc hw hl, ?_, ?_⟩
  · unfold match_indices
    rw [List.length_map, List.length_range]
  · intro i hi
    rw [match_indices_getD sim fi fc cl hi]
    constructor
    · intro c
      rw [List.mem_filter, List.mem_range, decide_eq_true_eq]
    · exact (List.pairwise_lt_range _).filter _

/-- **C2** (witness): one query, one identical candidate, cutoff `0.5`. -/
theorem similar_matches_match_set_witness :
    ∃ mi cs, similar_matches dotSim [[1]] [[1]] [1 / 2] = Except.ok (mi, cs) ∧
      mi.length = ([[1]] : List (List ℚ)).length ∧
      ∀ i : ℕ, i < ([[1]] : List (List ℚ)).length →
        (∀ c : ℕ, c ∈ mi.getD i [] ↔
          (c < ([[1]] : List (List ℚ)).length ∧
            [(1 : ℚ) / 2].getD i 0 ≤
              round3 (dotSim (([[1]] : List (List ℚ)).getD i [])
                (([[1]] : List (List ℚ)).getD c [])))) ∧
        List.Pairwise (· < ·) (mi.getD i []) :=
  similar_matches_match_set dotSim [[1]] [[1]] [1 / 2] (by simp) rfl rfl

/-- **C3**: with an empty candidate set, `similar_matches` returns empty
matches and an empty similarity matrix for every query matrix and every
cutoff list, and never raises. -/
theorem similar_matches_empty_candidates (sim : List ℚ → List ℚ → ℚ)
    (fi : List (List ℚ)) (cl : List ℚ) :
    similar_matches sim fi [] cl = Except.ok ([], []) := rfl

/-- **C4**: with a non-empty candidate set, a width mismatch fails with the
shape-mismatch assertion, and (widths agreeing) a cutoff-count mismatch fails
with the cardinality assertion; an `Except.error` carries no partial result. -/
theorem similar_matches_precondition_errors (sim : List ℚ → List ℚ → ℚ)
    (fi fc : List (List ℚ)) (cl : List ℚ) (hfc : fc ≠ []) :
    (width fi ≠ width fc →
      similar_matches sim fi fc cl = Except.error "matrices should have same columns") ∧
    (width fi = width fc → cl.length ≠ fi.length →
      similar_matches sim fi fc cl =
        Except.error "there should be one similarity cutoff for each input logo") := by
  constructor
  · intro hw
    unfold similar_matches
    rw [if_neg (fun h => hfc (List.length_eq_zero.mp h)), if_pos hw]
  · intro hw hl
    unfold similar_matches
    rw [if_neg (fun h => hfc (List.length_eq_zero.mp h)), if_neg (fun h => h hw), if_pos hl]

/-- **C4** (witness): a width mismatch (2 vs 1) raises the shape assertion; a
cutoff-count mismatch (0 cutoffs, 1 query) raises the cardinality assertion. -/
theorem similar_matches_precondition_errors_witness :
    similar_matches dotSim [[1, 0]] [[1]] [] =
      Except.error "matrices should have same columns" ∧
    similar_matches dotSim [[1]] [[1]] [] =
      Except.error "there should be one similarity cutoff for each input logo" :=
  ⟨(similar_matches_precondition_errors dotSim [[1, 0]] [[1]] [] (by simp)).1 (by decide),
   (similar_matches_precondition_errors dotSim [[1]] [[1]] [] (by simp)).2 rfl (by decide)⟩

/-- **C6**: on the success path (non-empty candidates, matching width, one
cutoff per query), the similarity matrix has exactly `Q` rows of exactly `C`
entries each. -/
theorem similar_matches_shape (sim : List ℚ → List ℚ → ℚ)
    (fi fc : List (List ℚ)) (cl : List ℚ)
    (hfc : fc ≠ []) (hw : width fi = width fc) (hl : cl.length = fi.length) :
    ∃ mi cs, similar_matches sim fi fc cl = Except.ok (mi, cs) ∧
      cs.length = fi.length ∧ ∀ row ∈ cs, row.length = fc.length := by
  refine ⟨_, _, similar_matches_eq_ok sim fi fc cl hfc hw hl, ?_, ?_⟩
  · unfold cos_sim_matrix
    rw [List.length_map]
  · intro row hrow
    unfold cos_sim_matrix at hrow
    rw [List.mem_map] at hrow
    obtain ⟨qrow, _, hq⟩ := hrow
    rw [← hq, List.length_map]

/-- **C6** (witness). -/
theorem similar_matches_shape_witness :
    ∃ mi cs, similar_matches dotSim [[1]] [[1]] [1 / 2] = Except.ok (mi, cs) ∧
      cs.length = ([[1]] : List (List ℚ)).length ∧
      ∀ row ∈ cs, row.length = ([[1]] : List (List ℚ)).length :=
  similar_matches_shape dotSim [[1]] [[1]] [1 / 2] (by simp) rfl rfl

/-- **C9**: the empty-candidate early return happens before either `assert`:
even with a cutoff list whose length differs from the query count (and with an
arbitrary, possibly malformed, query matrix), `similar_matches` returns the
empty result rather than an error. -/
theorem similar_matches_empty_skips_asserts (sim : List ℚ → List ℚ → ℚ)
    (fi : List (List ℚ)) (cl : List ℚ) (h : cl.length ≠ fi.length) :
    similar_matches sim fi [] cl = Except.ok ([], []) := rfl

/-- **C9** (witness): one query but zero cutoffs — the cardinality assert
would fail, yet the empty-candidate result is returned. -/
theorem similar_matches_empty_skips_asserts_witness :
    similar_matches dotSim [[1]] [] [] = Except.ok ([], []) :=
  similar_matches_empty_skips_asserts dotSim [[1]] [] (by decide)

/-- **C5**: for a fixed query and background set and thresholds
`t1 ≤ t2` in `(0, 1]`, whenever both calls return, the cutoff at `t2` is at
least the cutoff at `t1`. -/
theorem similarity_cutoff_threshold_mono (sim : List ℚ → List ℚ → ℚ) (q : List ℚ)
    (bg : List (List ℚ)) (t1 t2 c1 c2 : ℚ)
    (ht0 : 0 < t1) (ht12 : t1 ≤ t2) (ht2 : t2 ≤ 1) (hbg : bg ≠ [])
    (h1 : similarity_cutoff sim [q] bg t1 = some [c1])
    (h2 : similarity_cutoff sim [q] bg t2 = some [c2]) :
    c1 ≤ c2 := by
  rw [similarity_cutoff_single_some, similarity_cutoff_row_eq_some] at h1 h2
  obtain ⟨j1, hj1, hc1, hcnt1, hmax1⟩ := h1
  obtain ⟨j2, hj2, hc2, hcnt2, hmax2⟩ := h2
  subst hc1
  subst hc2
  apply binsEdge_le_binsEdge
  by_contra hlt
  push_neg at hlt
  exact hmax2 j1 hlt hj1
    (lt_of_lt_of_le hcnt1 (mul_le_mul_of_nonneg_right ht12 (Nat.cast_nonneg _)))

/-- **C5** (witness): background similarities `{0.1, 0.5}`; threshold `1/4`
gives cutoff `0.099` and threshold `3/4` gives cutoff `0.499`. -/
theorem similarity_cutoff_threshold_mono_witness : binsEdge 99 ≤ binsEdge 499 :=
  similarity_cutoff_threshold_mono dotSim [1] [[1 / 10], [1 / 2]] (1 / 4) (3 / 4)
    (binsEdge 99) (binsEdge 499) (by norm_num) (by norm_num) (by norm_num) (by simp)
    similarity_cutoff_pair_quarter similarity_cutoff_pair_threequarters

/-- **C7** (counterexample): with one query orthogonal to the single
background vector (similarity 0, landing in the first bin) and the default
threshold `0.95`, `similarity_cutoff` raises `IndexError` instead of
returning a one-element cutoff list. -/
theorem similarity_cutoff_length_counterexample :
    similarity_cutoff dotSim [[0, 1]] [[1, 0]] (95 / 100) = none := by
  have hrow : (([[1, 0]] : List (List ℚ)).map fun f => dotSim [0, 1] f) = [0] := by
    simp [dotSim]
  have h0 : similarity_cutoff_row [0] ((95 : ℚ) / 100) = none := by
    apply similarity_cutoff_row_eq_none
    rw [show cumsum [0] 0 = 1 by
      rw [cumsum_eq_countUpto _ 0 (by omega)]
      exact countUpto_single_zero_val]
    simp only [List.length_singleton]
    norm_num
  rw [similarity_cutoff_single, hrow, h0]
  rfl

/-- **C7** (amended): whenever `similarity_cutoff` returns (it raises when for
some query no bin's cumulative count stays below `threshold × B`), the list
has exactly one cutoff per query, in query order, and every cutoff lies in
`[0, 1)`. -/
theorem similarity_cutoff_returns_invariants (sim : List ℚ → List ℚ → ℚ)
    (fi bg : List (List ℚ)) (t : ℚ) (l : List ℚ) (hbg : bg ≠ [])
    (h : similarity_cutoff sim fi bg t = some l) :
    l.length = fi.length ∧
    (∀ i : ℕ, i < fi.length →
      similarity_cutoff_row (bg.map fun f => sim (fi.getD i []) f) t = some (l.getD i 0)) ∧
    (∀ c ∈ l, 0 ≤ c ∧ c < 1) := by
  unfold similarity_cutoff at h
  have hlen : l.length = fi.length := by
    rw [similarity_cutoff_rows_length h, List.length_map]
  refine ⟨hlen, ?_, ?_⟩
  · intro i hi
    have hg := similarity_cutoff_rows_getD h i (by rw [List.length_map]; exact hi)
    rwa [getD_map_of_lt _ fi [] [] hi] at hg
  · intro c hc
    rw [List.mem_iff_getElem] at hc
    obtain ⟨i, hil, hie⟩ := hc
    have hg := similarity_cutoff_rows_getD h i (by rw [List.length_map]; omega)
    have hld : l.getD i 0 = c := by
      rw [List.getD_eq_getElem?_getD, List.getElem?_eq_getElem hil]
      exact hie
    rw [hld] at hg
    rw [similarity_cutoff_row_eq_some] at hg
    obtain ⟨j, hj, hcj, _, _⟩ := hg
    subst hcj
    exact ⟨binsEdge_nonneg j, binsEdge_lt_one (by omega)⟩

/-- **C7** (witness). -/
theorem similarity_cutoff_returns_invariants_witness :
    [binsEdge 998].length = ([[1]] : List (List ℚ)).length ∧
    (∀ i : ℕ, i < ([[1]] : List (List ℚ)).length →
      similarity_cutoff_row
        (([[1]] : List (List ℚ)).map fun f => dotSim (([[1]] : List (List ℚ)).getD i []) f)
        (95 / 100) = some ([binsEdge 998].getD i 0)) ∧
    (∀ c ∈ [binsEdge 998], 0 ≤ c ∧ c < 1) :=
  similarity_cutoff_returns_invariants dotSim [[1]] [[1]] (95 / 100) [binsEdge 998]
    (by simp) (similarity_cutoff_unit_single (95 / 100) (by norm_num))

/-- **C8**: when the cumulative count never reaches `threshold × B`,
`similarity_cutoff` does not raise: it returns the edge `0.998` — the last
bin edge strictly below the maximum edge `0.999`. -/
theorem similarity_cutoff_fallback_last_edge (sim : List ℚ → List ℚ → ℚ) (q : List ℚ)
    (bg : List (List ℚ)) (t : ℚ)
    (h : ∀ j : ℕ, j ≤ 998 → (cumsum (bg.map fun f => sim q f) j : ℚ) < t * bg.length) :
    similarity_cutoff sim [q] bg t = some [binsEdge 998] ∧
    binsEdge 998 < binsEdge 999 ∧
    ∀ k : ℕ, k ≤ 999 → binsEdge k < binsEdge 999 → binsEdge k ≤ binsEdge 998 := by
  refine ⟨?_, binsEdge_lt_binsEdge (by omega), ?_⟩
  · apply similarity_cutoff_single_some.mpr
    apply similarity_cutoff_row_fallback
    have h998 := h 998 le_rfl
    rwa [List.length_map]
  · intro k hk999 hklt
    have hk : k < 999 := by
      by_contra hge
      push_neg at hge
      have := binsEdge_le_binsEdge hge
      linarith
    exact binsEdge_le_binsEdge (by omega)

/-- **C8** (witness): threshold `1.0` with the single background similarity
equal to `1`, outside every bin, so all cumulative counts stay at `0`. -/
theorem similarity_cutoff_fallback_last_edge_witness :
    similarity_cutoff dotSim [[1]] [[1]] 1 = some [binsEdge 998] ∧
    binsEdge 998 < binsEdge 999 ∧
    ∀ k : ℕ, k ≤ 999 → binsEdge k < binsEdge 999 → binsEdge k ≤ binsEdge 998 :=
  similarity_cutoff_fallback_last_edge dotSim [1] [[1]] 1 (by
    intro j hj
    rw [show (([[1]] : List (List ℚ)).map fun f => dotSim [1] f) = [1] by
      rw [List.map_cons, List.map_nil, dotSim_unit]]
    rw [cumsum_single_ge_one le_rfl hj]
    simp only [List.length_singleton]
    norm_num)

/-- **C10**: inputs satisfying the stated preconditions (threshold in
`(0, 1]`, non-empty background) exist on which `similarity_cutoff` fails:
whenever the first bin's cumulative count already reaches `threshold × B`, no
bin qualifies and the trailing `[-1]` selection raises. -/
theorem similarity_cutoff_first_bin_not_total (sim : List ℚ → List ℚ → ℚ)
    (q : List ℚ) (bg : List (List ℚ)) (t : ℚ)
    (ht0 : 0 < t) (ht1 : t ≤ 1) (hbg : bg ≠ [])
    (h : t * (bg.length : ℚ) ≤ (cumsum (bg.map fun f => sim q f) 0 : ℚ)) :
    similarity_cutoff sim [q] bg t = none := by
  have hrow := similarity_cutoff_row_eq_none (bg.map fun f => sim q f) t
    (by rwa [List.length_map])
  rw [similarity_cutoff_single, hrow]
  rfl

/-- **C10** (witness): query orthogonal to the single background vector —
similarity `0` falls in the first bin, whose count `1` already reaches
`0.95 × 1`. -/
theorem similarity_cutoff_first_bin_not_total_witness :
    similarity_cutoff dotSim [[1, 0]] [[0, 1]] (95 / 100) = none :=
  similarity_cutoff_first_bin_not_total dotSim [1, 0] [[0, 1]] (95 / 100)
    (by norm_num) (by norm_num) (by simp)
    (by
      rw [show (([[0, 1]] : List (List ℚ)).map fun f => dotSim [1, 0] f) = [0] by
        simp [dotSim]]
      rw [show cumsum [0] 0 = 1 by
        rw [cumsum_eq_countUpto _ 0 (by omega)]
        exact countUpto_single_zero_val]
      simp only [List.length_singleton]
      norm_num)

